import Mathlib

/-!
Verification development for the `Internship-Scrapper` repository.

The repository has two source files:

* `app.py` — the matching pipeline: `get_best_matches(resume_text, internships,
  top_k_filter)` embeds the resume and every internship text, filters to the
  `top_k_filter` most cosine-similar internships with `torch.topk`, prompts an
  external reasoning model, and parses its free-text answer with
  `json.loads` after stripping whitespace and code fences; the Streamlit UI
  then left-merges the parsed entries with the full listing records on
  `job_id = id` and sorts by `match_score` descending.
* `update_internships.py` — ingestion: for every scraped record it queries the
  store for an existing document with the same `link`, inserting a fresh
  document when none exists and otherwise updating the fields of the first
  matching document in place (document id unchanged).

This file gives a shallow embedding of those operations and proves or refutes
the specification claims about them.  External capabilities (the sentence
embedder, cosine similarity, and the generative model) are modelled as
function parameters; machine floats are modelled as exact rationals.
-/

namespace Scrapper

/-! ### JSON values, as produced by the Python `json.loads` -/

/-- The result of the Python `json.loads`: null, booleans, numbers (modelled as
exact rationals; `json.loads` additionally accepts the non-standard constants
`NaN`, `Infinity` and `-Infinity`, modelled by the two extra constructors),
strings, arrays, and objects (insertion-ordered key/value lists, later
duplicate keys overwriting the value at the first occurrence, as for a Python
`dict`). -/
inductive Json where
  | null : Json
  | bool (b : Bool) : Json
  | num (q : ℚ) : Json
  | str (s : String) : Json
  | arr (elems : List Json) : Json
  | obj (fields : List (String × Json)) : Json
  | nan : Json
  | inf (pos : Bool) : Json
deriving Repr

/-! ### Character classes and Python-style strip -/

/-- The four whitespace characters skipped by the JSON grammar (and by
`json.loads` around the top-level value). -/
def jsonWs (c : Char) : Bool :=
  c = ' ' || c = '\t' || c = '\n' || c = '\r'

/-- ASCII whitespace stripped by the Python `str.strip()` with no argument. -/
def pyWs (c : Char) : Bool :=
  jsonWs c || c = '\x0b' || c = '\x0c'

/-- Drop matching characters from the end of a list. -/
def dropWhileEnd (p : Char → Bool) (l : List Char) : List Char :=
  (l.reverse.dropWhile p).reverse

/-- Model of the Python `str.strip`: drop characters satisfying `p` from both ends. -/
def trimBoth (p : Char → Bool) (l : List Char) : List Char :=
  dropWhileEnd p (l.dropWhile p)

/-- The backtick character. -/
def backtick : Char := Char.ofNat 96

/-- The left-brace character. -/
def lbrace : Char := Char.ofNat 123

/-- The right-brace character. -/
def rbrace : Char := Char.ofNat 125

/-- The character set of the Python literal in `text.strip("```json")`:
`str.strip` treats its argument as a set of characters. -/
def fenceChar (c : Char) : Bool :=
  c = backtick || c = 'j' || c = 's' || c = 'o' || c = 'n'

/-- The character set of `text.strip("```")`. -/
def tickChar (c : Char) : Bool :=
  c = backtick

/-- Model of the Python `text.startswith` check for three backticks. -/
def startsWithTicks : List Char → Bool
  | c1 :: c2 :: c3 :: _ => c1 == backtick && c2 == backtick && c3 == backtick
  | _ => false

/-! ### A JSON parser modelling `json.loads` (app.py line 154) -/

/-- Skip JSON whitespace. -/
def skipWs (l : List Char) : List Char := l.dropWhile jsonWs

/-- Split off a maximal run of decimal digits. -/
def spanDigits (l : List Char) : List Char × List Char :=
  (l.takeWhile Char.isDigit, l.dropWhile Char.isDigit)

/-- Numeric value of a digit run (code point 48 is the digit zero). -/
def natOfDigits (ds : List Char) : Nat :=
  ds.foldl (fun a c => 10 * a + c.toNat - 48) 0

/-- Integer part of a JSON number: `0`, or a nonzero digit followed by
digits (strict JSON rejects leading zeros). -/
def parseIntPart : List Char → Option (Nat × List Char)
  | [] => none
  | c :: rest =>
    if c = '0' then some (0, rest)
    else if c.isDigit then
      some (natOfDigits (c :: rest.takeWhile Char.isDigit), rest.dropWhile Char.isDigit)
    else none

/-- Optional fractional part `.digits` of a JSON number, as a rational. -/
def parseFrac : List Char → Option (ℚ × List Char)
  | '.' :: rest =>
    match spanDigits rest with
    | ([], _) => none
    | (ds, rest2) => some ((natOfDigits ds : ℚ) / (10 : ℚ) ^ ds.length, rest2)
  | l => some (0, l)

/-- Nonempty digit run for an exponent, with its sign. -/
def parseExpDigits (pos : Bool) (l : List Char) : Option (Int × List Char) :=
  match spanDigits l with
  | ([], _) => none
  | (ds, rest) =>
    some (if pos then (natOfDigits ds : Int) else -(natOfDigits ds : Int), rest)

/-- Optional exponent part `e±digits` of a JSON number. -/
def parseExp : List Char → Option (Int × List Char)
  | [] => some (0, [])
  | c :: rest =>
    if c = 'e' || c = 'E' then
      match rest with
      | '+' :: r2 => parseExpDigits true r2
      | '-' :: r2 => parseExpDigits false r2
      | r2 => parseExpDigits true r2
    else some (0, c :: rest)

/-- Scale a rational by a power of ten. -/
def applyExp (q : ℚ) : Int → ℚ
  | Int.ofNat n => q * (10 : ℚ) ^ n
  | Int.negSucc n => q / (10 : ℚ) ^ (n + 1)

/-- A JSON number: optional minus sign, integer part, fraction, exponent. -/
def parseNumber (l : List Char) : Option (ℚ × List Char) :=
  let (neg, l1) := match l with
    | '-' :: r => (true, r)
    | _ => (false, l)
  match parseIntPart l1 with
  | none => none
  | some (ip, l2) =>
    match parseFrac l2 with
    | none => none
    | some (fr, l3) =>
      match parseExp l3 with
      | none => none
      | some (e, l4) =>
        let mag := applyExp ((ip : ℚ) + fr) e
        some (if neg then -mag else mag, l4)

/-- Hexadecimal digit value, by code-point ranges (0-9, a-f, A-F). -/
def hexVal (c : Char) : Option Nat :=
  let n := c.toNat
  if 48 ≤ n && n ≤ 57 then some (n - 48)
  else if 97 ≤ n && n ≤ 102 then some (n - 87)
  else if 65 ≤ n && n ≤ 70 then some (n - 55)
  else none

/-- Single-character JSON string escapes. -/
def escChar (e : Char) : Option Char :=
  if e = '"' then some '"'
  else if e = '\\' then some '\\'
  else if e = '/' then some '/'
  else if e = 'b' then some '\x08'
  else if e = 'f' then some '\x0c'
  else if e = 'n' then some '\n'
  else if e = 'r' then some '\r'
  else if e = 't' then some '\t'
  else none

/-- Body of a JSON string after the opening quote: contents up to the closing
quote, decoding escapes; raw control characters are rejected, as by
`json.loads` in strict mode. -/
def parseStringBody : List Char → Option (List Char × List Char)
  | [] => none
  | c :: rest =>
    if c = '"' then some ([], rest)
    else if c = '\\' then
      match rest with
      | [] => none
      | e :: r2 =>
        if e = 'u' then
          match r2 with
          | h1 :: h2 :: h3 :: h4 :: r3 =>
            match hexVal h1, hexVal h2, hexVal h3, hexVal h4 with
            | some a, some b, some cc, some d =>
              let n := ((a * 16 + b) * 16 + cc) * 16 + d
              if h : n.isValidChar then
                match parseStringBody r3 with
                | some (s, rem) => some (Char.ofNatAux n h :: s, rem)
                | none => none
              else none
            | _, _, _, _ => none
          | _ => none
        else
          match escChar e with
          | none => none
          | some d =>
            match parseStringBody r2 with
            | some (s, rem) => some (d :: s, rem)
            | none => none
    else if c.toNat < 32 then none
    else
      match parseStringBody rest with
      | some (s, rem) => some (c :: s, rem)
      | none => none

/-- Insert a key/value pair into an object with Python `dict` semantics:
an existing key keeps its position but takes the new value. -/
def objInsert (kvs : List (String × Json)) (k : String) (v : Json) :
    List (String × Json) :=
  match kvs with
  | [] => [(k, v)]
  | (k0, v0) :: rest =>
    if k0 = k then (k0, v) :: rest else (k0, v0) :: objInsert rest k v

/-- Fold a member list into a Python-`dict`-like object. -/
def objOfMembers (ms : List (String × Json)) : List (String × Json) :=
  ms.foldl (fun acc kv => objInsert acc kv.1 kv.2) []

mutual

/-- Recursive-descent JSON value parser (fuel-indexed so that all recursion is
structural); returns the value and the unconsumed input. -/
def parseValue : Nat → List Char → Option (Json × List Char)
  | 0, _ => none
  | _ + 1, [] => none
  | fuel + 1, c :: rest =>
    if c = '[' then
      match skipWs rest with
      | ']' :: r2 => some (.arr [], r2)
      | r2 =>
        match parseElems fuel r2 with
        | some (vs, r3) => some (.arr vs, r3)
        | none => none
    else if c = lbrace then
      match skipWs rest with
      | [] => none
      | d :: r2 =>
        if d = rbrace then some (.obj [], r2)
        else
          match parseMembers fuel (d :: r2) with
          | some (ms, r3) => some (.obj (objOfMembers ms), r3)
          | none => none
    else if c = '"' then
      match parseStringBody rest with
      | some (s, r2) => some (.str (String.mk s), r2)
      | none => none
    else if c = 't' then
      match rest with
      | 'r' :: 'u' :: 'e' :: r2 => some (.bool true, r2)
      | _ => none
    else if c = 'f' then
      match rest with
      | 'a' :: 'l' :: 's' :: 'e' :: r2 => some (.bool false, r2)
      | _ => none
    else if c = 'n' then
      match rest with
      | 'u' :: 'l' :: 'l' :: r2 => some (.null, r2)
      | _ => none
    else if c = 'N' then
      match rest with
      | 'a' :: 'N' :: r2 => some (.nan, r2)
      | _ => none
    else if c = 'I' then
      match rest with
      | 'n' :: 'f' :: 'i' :: 'n' :: 'i' :: 't' :: 'y' :: r2 => some (.inf true, r2)
      | _ => none
    else if c = '-' then
      match rest with
      | 'I' :: 'n' :: 'f' :: 'i' :: 'n' :: 'i' :: 't' :: 'y' :: r2 =>
        some (.inf false, r2)
      | _ =>
        match parseNumber (c :: rest) with
        | some (q, r2) => some (.num q, r2)
        | none => none
    else
      match parseNumber (c :: rest) with
      | some (q, r2) => some (.num q, r2)
      | none => none

/-- Comma-separated array elements up to the closing bracket. -/
def parseElems : Nat → List Char → Option (List Json × List Char)
  | 0, _ => none
  | fuel + 1, cs =>
    match parseValue fuel (skipWs cs) with
    | none => none
    | some (v, r1) =>
      match skipWs r1 with
      | [] => none
      | c :: r2 =>
        if c = ',' then
          match parseElems fuel r2 with
          | some (vs, r3) => some (v :: vs, r3)
          | none => none
        else if c = ']' then some ([v], r2)
        else none

/-- Comma-separated object members up to the closing brace. -/
def parseMembers : Nat → List Char → Option (List (String × Json) × List Char)
  | 0, _ => none
  | fuel + 1, cs =>
    match skipWs cs with
    | [] => none
    | c :: r1 =>
      if c = '"' then
        match parseStringBody r1 with
        | none => none
        | some (k, r2) =>
          match skipWs r2 with
          | ':' :: r3 =>
            match parseValue fuel (skipWs r3) with
            | none => none
            | some (v, r4) =>
              match skipWs r4 with
              | [] => none
              | d :: r5 =>
                if d = ',' then
                  match parseMembers fuel r5 with
                  | some (ms, r6) => some ((String.mk k, v) :: ms, r6)
                  | none => none
                else if d = rbrace then some ([(String.mk k, v)], r5)
                else none
          | _ => none
      else none

end

/-- Model of `json.loads`: trim surrounding JSON whitespace, parse one value, and
require that nothing else remains.  (Trimming first is equivalent to
`json.loads` skipping whitespace before the value and rejecting trailing
non-whitespace.) -/
def jsonParse (cs : List Char) : Option Json :=
  match parseValue ((trimBoth jsonWs cs).length + 2) (trimBoth jsonWs cs) with
  | some (v, []) => some v
  | _ => none

/-- The text preprocessing of `get_best_matches` (app.py lines 151–153):
`text = response.text.strip()`, then if `text.startswith("```")`,
`text = text.strip("```json").strip("```")`. -/
def preprocess (l : List Char) : List Char :=
  if startsWithTicks (trimBoth pyWs l) then
    trimBoth tickChar (trimBoth fenceChar (trimBoth pyWs l))
  else trimBoth pyWs l

/-- The value produced by `json.loads(text)` in the `try` block of
`get_best_matches` (app.py lines 150–154), `none` when it raises. -/
def parsedJson (s : String) : Option Json :=
  jsonParse (preprocess s.data)

/-- The full parse stage (app.py lines 150–156): the `try`/`except` returns
the parsed value as-is on success and `[]` on any exception.  Totality of
this function models that no exception escapes to the caller. -/
def parseStage (s : String) : Json :=
  match parsedJson s with
  | some v => v
  | none => Json.arr []

/-! ### The candidate corpus -/

/-- An internship record as handed to `get_best_matches`
(a Firestore document with its id attached by `get_internships`). -/
structure Listing where
  id : String
  title : String
  company_name : String
  description : String
  link : String
deriving DecidableEq, Repr

/-! ### The similarity filter (app.py lines 112–115) -/

/-- The cosine-similarity score of corpus position `i`
(`util.cos_sim(resume_emb, corpus_emb)[0][i]`). -/
def scoreAt (scores : List ℚ) (i : Nat) : ℚ := scores.getD i 0

/-- Selection order of `torch.topk(scores, k)`: position `i` comes no later
than position `j` iff `i` scores strictly higher, or they tie and `i` is the
earlier corpus position (descending scores, stable ties). -/
def idxRel (scores : List ℚ) (i j : Nat) : Prop :=
  scoreAt scores j < scoreAt scores i ∨ (scoreAt scores i = scoreAt scores j ∧ i ≤ j)

instance (scores : List ℚ) : DecidableRel (idxRel scores) := fun i j => by
  unfold idxRel; infer_instance

instance (scores : List ℚ) : IsTotal Nat (idxRel scores) where
  total i j := by
    rcases lt_trichotomy (scoreAt scores i) (scoreAt scores j) with h | h | h
    · exact Or.inr (Or.inl h)
    · rcases Nat.le_total i j with hij | hij
      · exact Or.inl (Or.inr ⟨h, hij⟩)
      · exact Or.inr (Or.inr ⟨h.symm, hij⟩)
    · exact Or.inl (Or.inl h)

instance (scores : List ℚ) : IsTrans Nat (idxRel scores) where
  trans a b c hab hbc := by
    rcases hab with hab | ⟨hab, hab2⟩ <;> rcases hbc with hbc | ⟨hbc, hbc2⟩
    · exact Or.inl (hbc.trans hab)
    · exact Or.inl (hbc ▸ hab)
    · exact Or.inl (hab ▸ hbc)
    · exact Or.inr ⟨hab.trans hbc, hab2.trans hbc2⟩

/-- Model of `torch.topk(scores, k=min(top_k_filter, len(scores))).indices` (app.py
line 113): the `k` corpus positions of highest score, in descending score
order, ties broken stably by corpus position. -/
def topkIndices (scores : List ℚ) (k : Nat) : List Nat :=
  (List.insertionSort (idxRel scores) (List.range scores.length)).take k

/-! ### Prompt construction (app.py lines 103–146) -/

/-- The text embedded for one internship (app.py lines 103–106):
`f"{title} {company_name} {description}"`. -/
def listingText (i : Listing) : String :=
  i.title ++ " " ++ i.company_name ++ " " ++ i.description

/-- One block of `job_data` (app.py lines 118–125). -/
def jobBlock (i : Listing) : String :=
  "Job ID: " ++ i.id ++ "\n" ++
  "Title: " ++ i.title ++ "\n" ++
  "Company: " ++ i.company_name ++ "\n" ++
  "Description: " ++ i.description ++ "\n" ++
  "Link: " ++ i.link ++ "\n"

/-- The joined `job_data` string (app.py line 118). -/
def jobData (ls : List Listing) : String :=
  String.intercalate "\n" (ls.map jobBlock)

/-- The ranking prompt (app.py lines 127–146). -/
def promptOf (resume_text : String) (job_data : String) : String :=
  "\n    You are the head of human resource with specialized training to recommend the best internships for a given resume.\n    Given the resume and internship list below, return the TOP 5 matches with a crisp and brutally honest reasoning and match score.\n\n    Resume:\n    " ++
  resume_text ++
  "\n\n    Internships:\n    " ++
  job_data ++
  "\n\n    Respond ONLY in JSON array format like:\n    [\n      \x7b\n        \"job_id\": \"<job id>\",\n        \"match_score\": <strict evaluation score out of 100, by matching the job\x27s requirements with the resume>,\n        \"reason\": \"<A valid, and a concise reason explaining why this job is a good match based on the resume>\"\n      \x7d,\n      ...\n    ]\n    "

/-! ### The matching pipeline (app.py lines 95–156) -/

/-- Result of one `get_best_matches` run, together with the number of
invocations of the embedding capability (`embedder.encode`) and of the
reasoning capability (`model.generate_content`) it performed. -/
structure PipelineRun where
  result : Json
  encodeCalls : Nat
  generateCalls : Nat
deriving Repr

/-- Model of `get_best_matches(resume_text, internships, top_k_filter)` (app.py
lines 95–156).  The embedding capability `encode`, the cosine similarity
`cos_sim` on its vector type `V`, and the reasoning capability `generate` are
explicit parameters.  The code encodes the resume and the corpus (two
`embedder.encode` calls) only after the empty-corpus short-circuit, takes the
`min(top_k_filter, len(scores))` top-scoring internships, prompts the model
once, and feeds its raw text response through the parse stage. -/
def get_best_matches {V : Type} (encode : String → V) (cos_sim : V → V → ℚ)
    (generate : String → String) (resume_text : String)
    (internships : List Listing) (top_k_filter : Nat) : PipelineRun :=
  if internships.isEmpty then ⟨Json.arr [], 0, 0⟩
  else
    let corpus := internships.map listingText
    let resume_emb := encode resume_text
    let corpus_emb := corpus.map encode
    let scores := corpus_emb.map (fun v => cos_sim resume_emb v)
    let k := min top_k_filter scores.length
    let filtered := (topkIndices scores k).filterMap (fun i => internships[i]?)
    let response := generate (promptOf resume_text (jobData filtered))
    ⟨parseStage response, 2, 1⟩

/-! ### The UI merge of parsed matches with listings (app.py lines 181–184) -/

/-- One row of `pd.DataFrame(matches)`: the fields of a parsed match entry,
`none` when the entry lacks the field (pandas fills `NaN`). -/
structure MatchRow where
  job_id : String
  match_score : Option ℚ
  reason : Option String
deriving DecidableEq, Repr

/-- The merge `pd.DataFrame(matches).merge(all_jobs_df, left_on="job_id",
right_on="id", how="left")` keeps every left row in order and attaches the listing whose
`id` equals the `job_id` of the row, or no listing data when there is none. -/
def joinRow (listings : List Listing) (m : MatchRow) : MatchRow × Option Listing :=
  (m, listings.find? (fun l => l.id == m.job_id))

/-- The `sort_values(by="match_score", ascending=False)` ordering: higher scores
first, rows with a missing score last (pandas puts `NaN` last). -/
def rowBefore (a b : MatchRow) : Bool :=
  match a.match_score, b.match_score with
  | some x, some y => decide (y ≤ x)
  | some _, none => true
  | none, some _ => false
  | none, none => true

/-- The sort relation on merged rows. -/
def rowRel (a b : MatchRow × Option Listing) : Prop :=
  rowBefore a.1 b.1 = true

instance : DecidableRel rowRel := fun a b => by
  unfold rowRel; infer_instance

instance : IsTotal (MatchRow × Option Listing) rowRel where
  total a b := by
    obtain ⟨⟨aj, as, ar⟩, al⟩ := a
    obtain ⟨⟨bj, bs, br⟩, bl⟩ := b
    unfold rowRel rowBefore
    rcases as with _ | x <;> rcases bs with _ | y <;> simp
    exact le_total y x

instance : IsTrans (MatchRow × Option Listing) rowRel where
  trans a b c hab hbc := by
    obtain ⟨⟨aj, as, ar⟩, al⟩ := a
    obtain ⟨⟨bj, bs, br⟩, bl⟩ := b
    obtain ⟨⟨cj, cs, cr⟩, cl⟩ := c
    unfold rowRel rowBefore at *
    rcases as with _ | x <;> rcases bs with _ | y <;>
      rcases cs with _ | z <;> simp_all
    exact le_trans hbc hab

/-- The `merged` frame (app.py lines 183–184): left-merge of the parsed match entries
with the full listing records on `job_id = id`, then sort by `match_score`
descending. -/
def mergedRows (entries : List MatchRow) (listings : List Listing) :
    List (MatchRow × Option Listing) :=
  List.insertionSort rowRel (entries.map (joinRow listings))

/-! ### Ingestion: upsert by link (update_internships.py lines 79–98) -/

/-- The fields written for a scraped record (update_internships.py
lines 81–90); timestamps are modelled as naturals. -/
structure StoredFields where
  title : String
  company_name : String
  description : String
  link : String
  source : String
  deadline : Option String
  created_at : Nat
  updated_at : Nat
deriving DecidableEq, Repr

/-- The `data` dict built for a scraped row at scrape time `now`
(update_internships.py lines 81–90): all fields are set, `deadline` to
`None` and both timestamps to the current time. -/
def scrapedData (title company_name description link source : String)
    (now : Nat) : StoredFields :=
  ⟨title, company_name, description, link, source, none, now, now⟩

/-- A stored document: an immutable document id plus its fields. -/
structure Doc where
  id : Nat
  fields : StoredFields
deriving DecidableEq, Repr

/-- The write step of `update_internships` (update_internships.py
lines 79–98): query for documents whose `link` equals the scraped link;
if none exists, `add` a fresh document with the scraped data, else
`update` the fields of the first matching document in place (its document id is
unchanged). -/
def upsert_listing_by_link (store : List Doc) (freshId : Nat)
    (data : StoredFields) : List Doc :=
  match store.find? (fun d => d.fields.link == data.link) with
  | none => store ++ [⟨freshId, data⟩]
  | some d0 => store.map (fun e => if e.id = d0.id then ⟨e.id, data⟩ else e)

/-! ### Concrete fixtures used by witnesses and counterexamples -/

/-- A deterministic stub embedding capability. -/
def stubEncode : String → ℚ := fun _ => 0

/-- A deterministic stub cosine similarity. -/
def stubSim : ℚ → ℚ → ℚ := fun _ _ => 0

/-- A stub reasoning capability answering an empty JSON array. -/
def stubGen : String → String := fun _ => "[]"

/-- A stub reasoning capability answering a one-element JSON array. -/
def stubGenTrue : String → String := fun _ => "[true]"

/-- A concrete listing. -/
def listingA : Listing := ⟨"A", "Backend Intern", "Acme", "Python backend work", "http://a"⟩

/-- A second concrete listing. -/
def listingB : Listing := ⟨"B", "Marketing Intern", "Mktg", "social media", "http://b"⟩

/-- A stored document first created at time 100 with link "L". -/
def oldDoc : Doc := ⟨7, scrapedData "t" "c" "d" "L" "s" 100⟩

/-- Freshly scraped data for the same link "L" at time 200. -/
def newData : StoredFields := scrapedData "t2" "c2" "d2" "L" "s" 200

/-- A parsed entry with an identifier outside the corpus and an
out-of-range score. -/
def ghostRow : MatchRow := ⟨"ghost", some 150, some "hallucinated"⟩

/-- A parsed entry with a known identifier but missing score and reason. -/
def bareRow : MatchRow := ⟨"A", none, none⟩

/-- Six parsed entries — one more than the advertised top-5. -/
def sixRows : List MatchRow :=
  [⟨"I1", some 10, none⟩, ⟨"I2", some 20, none⟩, ⟨"I3", some 30, none⟩,
   ⟨"I4", some 40, none⟩, ⟨"I5", some 50, none⟩, ⟨"I6", some 60, none⟩]

/-! ## Theorems -/

/-! ### C1 — the parse stage fails closed, but does not check the top-level shape -/

/-- C1 (counterexample): the claim says a successfully parsed JSON value of
the wrong top-level shape (here the JSON object `{}`) yields an empty result
list; in the code `json.loads` succeeds and its value is returned as-is, so
the parse stage returns the object, not an empty list. -/
theorem parse_stage_shape_unchecked :
    parseStage "\x7b\x7d" = Json.obj [] ∧ parseStage "\x7b\x7d" ≠ Json.arr [] :=
  ⟨rfl, fun h => Json.noConfusion (show Json.obj [] = Json.arr [] from h)⟩

/-- C1 (amended): for every raw response text, if `json.loads` (after
whitespace/fence preprocessing) fails, the parse stage returns the empty
list, and it never raises (it is total); but when parsing succeeds the value
is returned unchanged whatever its top-level shape. -/
theorem parse_stage_fail_closed (s : String) :
    (parsedJson s = none → parseStage s = Json.arr []) ∧
    (∀ v, parsedJson s = some v → parseStage s = v) := by
  unfold parseStage
  constructor
  · intro h; rw [h]
  · intro v h; rw [h]

/-- Witness for C1: the malformed text `"not json"` yields the empty list. -/
theorem parse_stage_fail_closed_witness : parseStage "not json" = Json.arr [] :=
  (parse_stage_fail_closed "not json").1 rfl

/-! ### C2 — parsed entries are not validated or dropped -/

/-- C2 (counterexample): an entry whose identifier is in no listing and whose
score 150 is out of range, and an entry with missing fields, are both kept by
the merge — the claim that they are individually dropped is false. -/
theorem invalid_entries_kept :
    mergedRows [ghostRow, bareRow] [listingA] =
      [(ghostRow, none), (bareRow, some listingA)] := by decide

/-- C2 (amended): the pipeline performs no per-entry validation: the merge
keeps every parsed entry (out-of-range scores, missing fields and unknown
identifiers included); an entry whose identifier matches no listing is kept
with empty listing data by the left join, and entries with a known
identifier are joined to that listing. -/
theorem merge_keeps_all_entries (entries : List MatchRow) (listings : List Listing) :
    ((mergedRows entries listings).map Prod.fst).Perm entries ∧
    ∀ p ∈ mergedRows entries listings,
      p.2 = listings.find? (fun l => l.id == p.1.job_id) := by
  constructor
  · unfold mergedRows
    have h2 : (entries.map (joinRow listings)).map Prod.fst = entries := by
      rw [List.map_map]
      have hpt : ∀ m ∈ entries, (Prod.fst ∘ joinRow listings) m = m := fun m _ => rfl
      rw [List.map_congr_left hpt, List.map_id']
    have h1 := (List.perm_insertionSort rowRel (entries.map (joinRow listings))).map Prod.fst
    rwa [h2] at h1
  · intro p hp
    unfold mergedRows at hp
    obtain ⟨m, hm, he⟩ := List.mem_map.1 ((List.mem_insertionSort rowRel).1 hp)
    rw [← he]
    rfl

/-! ### C3 — sort and join happen, but there is no top-5 truncation -/

/-- C3 (counterexample): with six parsed match entries the merged output has
six records — the orchestrator does not truncate to 5 (the "top 5" is only
requested from the model in the prompt). -/
theorem merged_not_truncated_to_five :
    ¬ (mergedRows sixRows [listingA]).length ≤ 5 := by decide

/-- C3 (amended): the merge stage sorts the parsed entries by match score
descending (missing scores last, per the `rowRel` order), left-joins each
entry with the listing whose id equals its `job_id`, and returns all joined
records — as many as there are parsed entries, with no top-5 cutoff. -/
theorem merge_sorts_and_joins_all (entries : List MatchRow) (listings : List Listing) :
    (mergedRows entries listings).length = entries.length ∧
    (mergedRows entries listings).Sorted rowRel ∧
    ∀ p ∈ mergedRows entries listings,
      p.2 = listings.find? (fun l => l.id == p.1.job_id) := by
  refine ⟨?_, ?_, ?_⟩
  · unfold mergedRows
    rw [List.length_insertionSort, List.length_map]
  · exact List.sorted_insertionSort rowRel _
  · intro p hp
    unfold mergedRows at hp
    obtain ⟨m, hm, he⟩ := List.mem_map.1 ((List.mem_insertionSort rowRel).1 hp)
    rw [← he]
    rfl

/-! ### C4 — empty corpus short-circuits before any capability call -/

/-- C4: on the empty corpus the pipeline returns an empty result immediately
and performs zero embedding calls and zero reasoning calls, whatever the
capabilities, query and K. -/
theorem empty_corpus_short_circuit {V : Type} (encode : String → V)
    (cos_sim : V → V → ℚ) (generate : String → String)
    (resume_text : String) (top_k_filter : Nat) :
    get_best_matches encode cos_sim generate resume_text [] top_k_filter =
      ⟨Json.arr [], 0, 0⟩ := rfl

/-! ### C7 — the pipeline is a deterministic function of its inputs -/

/-- C7: the pipeline output depends only on the corpus, the query and the
pointwise behaviour of the embedding, similarity and reasoning capabilities:
two runs with identical inputs and extensionally equal capabilities yield
identical ordered output. -/
theorem pipeline_deterministic {V : Type} (e1 e2 : String → V)
    (s1 s2 : V → V → ℚ) (g1 g2 : String → String)
    (resume_text : String) (internships : List Listing) (top_k_filter : Nat)
    (he : ∀ s, e1 s = e2 s) (hs : ∀ a b, s1 a b = s2 a b)
    (hg : ∀ p, g1 p = g2 p) :
    get_best_matches e1 s1 g1 resume_text internships top_k_filter =
      get_best_matches e2 s2 g2 resume_text internships top_k_filter := by
  have h1 : e1 = e2 := funext he
  have h2 : s1 = s2 := funext fun a => funext fun b => hs a b
  have h3 : g1 = g2 := funext hg
  rw [h1, h2, h3]

/-- Witness for C7 at concrete stub capabilities. -/
theorem pipeline_deterministic_witness :
    get_best_matches stubEncode stubSim stubGen "r" [listingA] 30 =
      get_best_matches stubEncode stubSim stubGen "r" [listingA] 30 :=
  pipeline_deterministic stubEncode stubEncode stubSim stubSim stubGen stubGen
    "r" [listingA] 30 (fun _ => rfl) (fun _ _ => rfl) (fun _ => rfl)

/-! ### C8 — empty corpus short-circuits, the empty query does not -/

/-- C8 (counterexample): with an empty query text and a nonempty corpus the
pipeline does not short-circuit: both embedding calls and the reasoning call
happen, and the result is whatever the model answer parses to (here a
nonempty array), not an empty result. -/
theorem empty_query_not_short_circuited :
    get_best_matches stubEncode stubSim stubGenTrue "" [listingA] 30 =
      ⟨Json.arr [Json.bool true], 2, 1⟩ := rfl

/-- C8 (amended): the empty corpus short-circuits to an empty result with no
capability calls (and, the function being total, no exception); the empty
query text is not special-cased — the pipeline still performs its two
embedding calls and one reasoning call. -/
theorem empty_input_handling {V : Type} (encode : String → V)
    (cos_sim : V → V → ℚ) (generate : String → String) (resume_text : String)
    (internships : List Listing) (top_k_filter : Nat) :
    get_best_matches encode cos_sim generate resume_text [] top_k_filter =
      ⟨Json.arr [], 0, 0⟩ ∧
    (internships ≠ [] →
      (get_best_matches encode cos_sim generate "" internships top_k_filter).encodeCalls = 2 ∧
      (get_best_matches encode cos_sim generate "" internships top_k_filter).generateCalls = 1) := by
  refine ⟨rfl, fun h => ?_⟩
  unfold get_best_matches
  rw [if_neg (by simpa using h)]
  exact ⟨rfl, rfl⟩

/-- Witness for C8 with a concrete nonempty corpus. -/
theorem empty_input_handling_witness :
    get_best_matches stubEncode stubSim stubGen "r" [] 30 = ⟨Json.arr [], 0, 0⟩ ∧
    ((get_best_matches stubEncode stubSim stubGen "" [listingA] 30).encodeCalls = 2 ∧
     (get_best_matches stubEncode stubSim stubGen "" [listingA] 30).generateCalls = 1) :=
  ⟨(empty_input_handling stubEncode stubSim stubGen "r" [listingA] 30).1,
   (empty_input_handling stubEncode stubSim stubGen "r" [listingA] 30).2 (by decide)⟩

/-! ### C9 — upsert by link: insert iff the link is new, update preserves the id -/

/-- C9: the ingestion write inserts a fresh document exactly when no stored
document has the scraped link; otherwise the first document with that link
gets the scraped fields while every document id (in particular its own) is
unchanged, and all other documents survive untouched. -/
theorem upsert_by_link_spec (store : List Doc) (freshId : Nat) (data : StoredFields) :
    ((∀ d ∈ store, d.fields.link ≠ data.link) →
      upsert_listing_by_link store freshId data = store ++ [⟨freshId, data⟩]) ∧
    (∀ d0, store.find? (fun d => d.fields.link == data.link) = some d0 →
      (upsert_listing_by_link store freshId data).map Doc.id = store.map Doc.id ∧
      (⟨d0.id, data⟩ : Doc) ∈ upsert_listing_by_link store freshId data ∧
      ∀ e ∈ store, e.id ≠ d0.id → e ∈ upsert_listing_by_link store freshId data) := by
  constructor
  · intro h
    unfold upsert_listing_by_link
    rw [List.find?_eq_none.2 (fun d hd => by simpa using h d hd)]
  · intro d0 h
    unfold upsert_listing_by_link
    rw [h]
    refine ⟨?_, ?_, ?_⟩
    · rw [List.map_map]
      apply List.map_congr_left
      intro e he
      by_cases hid : e.id = d0.id <;> simp [hid]
    · exact List.mem_map.2 ⟨d0, List.mem_of_find?_eq_some h, by simp⟩
    · intro e he hne
      exact List.mem_map.2 ⟨e, he, by simp [hne]⟩

/-- Witness for C9: updating the stored link "L" with fresh data keeps the
document id 7 and the rest of the store. -/
theorem upsert_by_link_spec_witness :
    (upsert_listing_by_link [oldDoc] 9 newData).map Doc.id = [oldDoc].map Doc.id ∧
    (⟨oldDoc.id, newData⟩ : Doc) ∈ upsert_listing_by_link [oldDoc] 9 newData ∧
    ∀ e ∈ [oldDoc], e.id ≠ oldDoc.id → e ∈ upsert_listing_by_link [oldDoc] 9 newData :=
  (upsert_by_link_spec [oldDoc] 9 newData).2 oldDoc (by decide)

/-! ### C10 — re-scraping an existing link overwrites created_at -/

/-- C10: when the link of a scraped record matches a stored document, the update
writes the freshly built data — whose `created_at` is the scrape time — over
the stored fields: the document that keeps the old id carries
`created_at = now`, and when the old timestamp differed it is lost. -/
theorem update_overwrites_created_at (store : List Doc) (freshId : Nat)
    (title company_name description link source : String) (now : Nat) (d0 : Doc)
    (hfind : store.find? (fun d => d.fields.link == link) = some d0)
    (hold : d0.fields.created_at ≠ now) :
    ∀ e ∈ upsert_listing_by_link store freshId
        (scrapedData title company_name description link source now),
      e.id = d0.id →
        e.fields.created_at = now ∧ e.fields.created_at ≠ d0.fields.created_at := by
  intro e he hid
  unfold upsert_listing_by_link at he
  have hfind2 : store.find?
      (fun d => d.fields.link ==
        (scrapedData title company_name description link source now).link) = some d0 := hfind
  rw [hfind2] at he
  obtain ⟨a, ha, hae⟩ := List.mem_map.1 he
  by_cases h : a.id = d0.id
  · rw [if_pos h] at hae
    rw [← hae]
    exact ⟨rfl, fun hc => hold hc.symm⟩
  · rw [if_neg h] at hae
    exact absurd (hae ▸ hid) h

/-- Witness for C10: document 7, created at time 100, is re-scraped at time
200 and its stored creation timestamp becomes 200. -/
theorem update_overwrites_created_at_witness :
    (⟨7, scrapedData "t2" "c2" "d2" "L" "s" 200⟩ : Doc).fields.created_at = 200 ∧
    (⟨7, scrapedData "t2" "c2" "d2" "L" "s" 200⟩ : Doc).fields.created_at ≠
      oldDoc.fields.created_at :=
  update_overwrites_created_at [oldDoc] 9 "t2" "c2" "d2" "L" "s" 200 oldDoc
    (by decide) (by decide) ⟨7, scrapedData "t2" "c2" "d2" "L" "s" 200⟩
    (by decide) rfl

/-! ### C5 — the similarity filter -/

/-- Looking up every position of an index list that is in bounds loses
nothing: the filtered lookup has the same length as the index list. -/
theorem length_filterMap_getElem (xs : List Listing) :
    ∀ (l : List Nat), (∀ i ∈ l, i < xs.length) →
      (l.filterMap (fun i => xs[i]?)).length = l.length
  | [], _ => rfl
  | i :: t, h => by
    have hi : i < xs.length := h i (List.mem_cons_self i t)
    rw [List.filterMap_cons, List.getElem?_eq_getElem hi]
    simpa using
      length_filterMap_getElem xs t (fun j hj => h j (List.mem_cons_of_mem i hj))

/-- When listing ids are pairwise distinct, looking up a duplicate-free list
of positions yields listings with pairwise distinct ids. -/
theorem nodup_ids_filterMap_getElem (xs : List Listing)
    (hids : (xs.map Listing.id).Nodup) :
    ∀ (l : List Nat), l.Nodup →
      ((l.filterMap (fun i => xs[i]?)).map Listing.id).Nodup
  | [], _ => by simp
  | i :: t, hnd => by
    rw [List.filterMap_cons]
    cases hx : xs[i]? with
    | none => exact nodup_ids_filterMap_getElem xs hids t (List.nodup_cons.1 hnd).2
    | some a =>
      rw [List.map_cons]
      refine List.Pairwise.cons ?_
        (nodup_ids_filterMap_getElem xs hids t (List.nodup_cons.1 hnd).2)
      intro y hy hay
      obtain ⟨b, hb, hba⟩ := List.mem_map.1 hy
      obtain ⟨j, hj, hjb⟩ := List.mem_filterMap.1 hb
      have hmi : (xs.map Listing.id)[i]? = some a.id := by
        rw [List.getElem?_map, hx]; rfl
      have hmj : (xs.map Listing.id)[j]? = some b.id := by
        rw [List.getElem?_map, hjb]; rfl
      have hilen : i < (xs.map Listing.id).length := by
        by_contra hc
        rw [List.getElem?_eq_none (Nat.le_of_not_lt hc)] at hmi
        exact Option.noConfusion hmi
      have hij : i = j := by
        apply List.getElem?_inj hilen hids
        rw [hmi, hmj, hba, hay]
      exact (List.nodup_cons.1 hnd).1 (hij ▸ hj)

/-- C5: the similarity filter.  `torch.topk` over the cosine-similarity
scores (one score per corpus position, embodied by the `scores` list, so the
statement holds for every embedding and query) returns exactly
`min K n` positions on a corpus of `n` candidates — at least one for `K ≥ 1`
and a nonempty corpus — with no position repeated, ordered by strictly
descending score except for ties which keep ascending corpus order (stable
tie-break), every selected score at least every excluded score; and when
listing ids are distinct, the selected candidates have no repeated id. -/
theorem similarity_filter_spec (internships : List Listing) (scores : List ℚ)
    (K : Nat) (hlen : scores.length = internships.length)
    (hne : internships ≠ []) (hK : 1 ≤ K)
    (hids : (internships.map Listing.id).Nodup) :
    (topkIndices scores K).length = min K internships.length ∧
    1 ≤ (topkIndices scores K).length ∧
    (topkIndices scores K).Nodup ∧
    List.Pairwise (fun i j => scoreAt scores j < scoreAt scores i ∨
      (scoreAt scores i = scoreAt scores j ∧ i < j)) (topkIndices scores K) ∧
    (∀ i ∈ topkIndices scores K, ∀ j, j < scores.length →
      j ∉ topkIndices scores K → scoreAt scores j ≤ scoreAt scores i) ∧
    ((topkIndices scores K).filterMap (fun i => internships[i]?)).length =
      (topkIndices scores K).length ∧
    (((topkIndices scores K).filterMap (fun i => internships[i]?)).map Listing.id).Nodup := by
  set L := List.insertionSort (idxRel scores) (List.range scores.length) with hL
  have hsel : topkIndices scores K = L.take K := rfl
  have hperm : L.Perm (List.range scores.length) := List.perm_insertionSort _ _
  have hLlen : L.length = scores.length := by
    rw [hperm.length_eq, List.length_range]
  have hLnodup : L.Nodup := hperm.nodup_iff.2 (List.nodup_range _)
  have hLsorted : L.Pairwise (idxRel scores) := List.sorted_insertionSort _ _
  have hmemL : ∀ j, j ∈ L ↔ j < scores.length := fun j => by
    rw [hperm.mem_iff, List.mem_range]
  have hlen1 : (topkIndices scores K).length = min K internships.length := by
    rw [hsel, List.length_take, hLlen, hlen]
  have hvalid : ∀ i ∈ topkIndices scores K, i < internships.length := by
    intro i hi
    rw [← hlen, ← hmemL i]
    exact (List.take_sublist K L).subset (hsel ▸ hi)
  have hnodup : (topkIndices scores K).Nodup := by
    rw [hsel]; exact (List.take_sublist K L).nodup hLnodup
  refine ⟨hlen1, ?_, hnodup, ?_, ?_, ?_, ?_⟩
  · rw [hlen1]
    have h1 : 1 ≤ internships.length := by
      cases internships with
      | nil => exact absurd rfl hne
      | cons a t => exact Nat.succ_le_succ (Nat.zero_le _)
    omega
  · have hpair : (topkIndices scores K).Pairwise (idxRel scores) := by
      rw [hsel]; exact hLsorted.sublist (List.take_sublist K L)
    have hcomb := hpair.and hnodup
    refine hcomb.imp ?_
    rintro i j ⟨hrel | ⟨heq, hle⟩, hne2⟩
    · exact Or.inl hrel
    · exact Or.inr ⟨heq, Nat.lt_of_le_of_ne hle hne2⟩
  · intro i hi j hjlen hjnot
    have hsplitL : (L.take K ++ L.drop K).Pairwise (idxRel scores) := by
      rw [List.take_append_drop]; exact hLsorted
    have hcross := (List.pairwise_append.1 hsplitL).2.2
    have hjL : j ∈ L.take K ++ L.drop K := by
      rw [List.take_append_drop]; exact (hmemL j).2 hjlen
    have hjdrop : j ∈ L.drop K := by
      rcases List.mem_append.1 hjL with h | h
      · exact absurd (hsel ▸ h) hjnot
      · exact h
    rcases hcross i (hsel ▸ hi) j hjdrop with h | ⟨heq, _⟩
    · exact h.le
    · exact le_of_eq heq.symm
  · exact length_filterMap_getElem internships _ hvalid
  · exact nodup_ids_filterMap_getElem internships hids _ hnodup

/-- Witness for C5 on a two-listing corpus with scores 1 and 2 and K = 1. -/
theorem similarity_filter_spec_witness :
    (topkIndices [(1 : ℚ), 2] 1).length = min 1 [listingA, listingB].length ∧
    1 ≤ (topkIndices [(1 : ℚ), 2] 1).length ∧
    (topkIndices [(1 : ℚ), 2] 1).Nodup ∧
    List.Pairwise (fun i j => scoreAt [(1 : ℚ), 2] j < scoreAt [(1 : ℚ), 2] i ∨
      (scoreAt [(1 : ℚ), 2] i = scoreAt [(1 : ℚ), 2] j ∧ i < j))
      (topkIndices [(1 : ℚ), 2] 1) ∧
    (∀ i ∈ topkIndices [(1 : ℚ), 2] 1, ∀ j, j < ([(1 : ℚ), 2] : List ℚ).length →
      j ∉ topkIndices [(1 : ℚ), 2] 1 →
      scoreAt [(1 : ℚ), 2] j ≤ scoreAt [(1 : ℚ), 2] i) ∧
    ((topkIndices [(1 : ℚ), 2] 1).filterMap
        (fun i => [listingA, listingB][i]?)).length =
      (topkIndices [(1 : ℚ), 2] 1).length ∧
    (((topkIndices [(1 : ℚ), 2] 1).filterMap
        (fun i => [listingA, listingB][i]?)).map Listing.id).Nodup :=
  similarity_filter_spec [listingA, listingB] [(1 : ℚ), 2] 1 rfl
    (by decide) (by decide) (by decide)

/-! ### C6 — fenced code blocks are stripped before parsing -/

/-- Stripping steps over a character in the strip set. -/
theorem dropWhile_cons_pos {p : Char → Bool} {c : Char} {l : List Char}
    (h : p c = true) : List.dropWhile p (c :: l) = List.dropWhile p l := by
  simp [List.dropWhile_cons, h]

/-- Stripping stops at a character outside the strip set. -/
theorem dropWhile_cons_neg {p : Char → Bool} {c : Char} {l : List Char}
    (h : p c = false) : List.dropWhile p (c :: l) = c :: l := by
  simp [List.dropWhile_cons, h]

/-- If `dropWhile` leaves a nonempty list unchanged, its head is outside the
strip set. -/
theorem head_false_of_dropWhile_eq_self {p : Char → Bool} {c : Char}
    {l : List Char} (h : List.dropWhile p (c :: l) = c :: l) : p c = false := by
  cases hp : p c
  · rfl
  · exfalso
    rw [dropWhile_cons_pos hp] at h
    have hlen := congrArg List.length h
    have hle : (List.dropWhile p l).length ≤ l.length :=
      (List.dropWhile_suffix p).sublist.length_le
    simp at hlen
    omega

/-- A list unchanged by `dropWhile` for a larger strip set is unchanged for a
smaller one. -/
theorem dropWhile_eq_self_mono {p q : Char → Bool}
    (himp : ∀ c, q c = true → p c = true) {l : List Char}
    (h : List.dropWhile p l = l) : List.dropWhile q l = l := by
  cases l with
  | nil => rfl
  | cons c l2 =>
    have hc : p c = false := head_false_of_dropWhile_eq_self h
    have hqc : q c = false := by
      cases hq : q c
      · rfl
      · rw [himp c hq] at hc
        exact Bool.noConfusion hc
    exact dropWhile_cons_neg hqc

/-- A list unchanged by a two-sided strip is unchanged by each one-sided
strip (stated via the reverse for the right side). -/
theorem trimBoth_eq_self_parts {p : Char → Bool} {l : List Char}
    (h : trimBoth p l = l) :
    List.dropWhile p l = l ∧ List.dropWhile p l.reverse = l.reverse := by
  have hsub1 : (List.dropWhile p l).Sublist l := (List.dropWhile_suffix p).sublist
  have hlen2 : (trimBoth p l).length ≤ (List.dropWhile p l).length := by
    unfold trimBoth dropWhileEnd
    rw [List.length_reverse]
    have := (List.dropWhile_suffix (l := (List.dropWhile p l).reverse) p).sublist.length_le
    simpa using this
  have hlenl : l.length ≤ (List.dropWhile p l).length := by
    have := congrArg List.length h
    omega
  have hdw : List.dropWhile p l = l := hsub1.eq_of_length
    (Nat.le_antisymm hsub1.length_le hlenl)
  refine ⟨hdw, ?_⟩
  have hdwe : dropWhileEnd p l = l := by
    unfold trimBoth at h
    rwa [hdw] at h
  unfold dropWhileEnd at hdwe
  have := congrArg List.reverse hdwe
  rwa [List.reverse_reverse] at this

/-- A two-sided strip leaves a list alone when both end characters are
outside the strip set. -/
theorem trimBoth_eq_self_of_ends {p : Char → Bool} {c d : Char} {m : List Char}
    (hc : p c = false) (hd : p d = false) :
    trimBoth p (c :: (m ++ [d])) = c :: (m ++ [d]) := by
  unfold trimBoth dropWhileEnd
  rw [dropWhile_cons_neg hc]
  have h1 : (c :: (m ++ [d])).reverse = d :: (m.reverse ++ [c]) := by simp
  rw [h1, dropWhile_cons_neg hd, ← h1, List.reverse_reverse]

/-- A text whose first three characters are backticks starts with ```. -/
theorem startsWithTicks_of_ticks (l : List Char) :
    startsWithTicks (backtick :: backtick :: backtick :: l) = true := by
  simp [startsWithTicks]

/-- A text starting with any other character does not start with ```. -/
theorem startsWithTicks_cons_ne {c : Char} (l : List Char)
    (h : (c == backtick) = false) : startsWithTicks (c :: l) = false := by
  match l with
  | [] => rfl
  | [_] => rfl
  | _ :: _ :: _ => simp [startsWithTicks, h]

/-- Parsing depends only on the whitespace-trimmed input. -/
theorem jsonParse_congr {a b : List Char}
    (h : trimBoth jsonWs a = trimBoth jsonWs b) : jsonParse a = jsonParse b := by
  unfold jsonParse
  rw [h]

set_option maxHeartbeats 2000000 in
/-- A successful parse of a JSON array starts at a `[`. -/
theorem parseValue_arr_head : ∀ (fuel : Nat) (cs : List Char) (xs : List Json)
    (rest : List Char), parseValue fuel cs = some (Json.arr xs, rest) →
    ∃ r, cs = '[' :: r := by
  intro fuel cs xs rest h
  match fuel, cs with
  | 0, _ => exact absurd h (by simp [parseValue])
  | _ + 1, [] => exact absurd h (by simp [parseValue])
  | fuel + 1, c :: r =>
    by_cases h1 : c = '['
    · exact ⟨r, by rw [h1]⟩
    · exfalso
      simp only [parseValue, if_neg h1] at h
      split_ifs at h <;> (repeat' split at h) <;> try cases h

/-- C6: for every response text `t` that is a (whitespace-trimmed) valid
JSON array, wrapping it in a fenced code block with the `json` language tag
(````json` before, ```` ``` ```` after) parses to exactly the same value as
the bare text: the fence and tag are stripped before `json.loads`. -/
theorem fenced_block_parse_eq (t : String) (xs : List Json)
    (htrim : trimBoth pyWs t.data = t.data)
    (hparse : jsonParse t.data = some (Json.arr xs)) :
    parseStage ("```json\n" ++ t ++ "\n```") = parseStage t := by
  have hjmono : ∀ c, jsonWs c = true → pyWs c = true := by
    intro c hc
    unfold pyWs
    rw [hc]
    rfl
  obtain ⟨hdw, hdwrev⟩ := trimBoth_eq_self_parts htrim
  have hdwJ : List.dropWhile jsonWs t.data = t.data :=
    dropWhile_eq_self_mono hjmono hdw
  have hdwrevJ : List.dropWhile jsonWs t.data.reverse = t.data.reverse :=
    dropWhile_eq_self_mono hjmono hdwrev
  have htrimJ : trimBoth jsonWs t.data = t.data := by
    unfold trimBoth dropWhileEnd
    rw [hdwJ, hdwrevJ, List.reverse_reverse]
  obtain ⟨r0, hr0⟩ : ∃ r, t.data = '[' :: r := by
    unfold jsonParse at hparse
    rw [htrimJ] at hparse
    cases hpv : parseValue (t.data.length + 2) t.data with
    | none =>
      rw [hpv] at hparse
      exact Option.noConfusion hparse
    | some pr =>
      obtain ⟨v, rest⟩ := pr
      rw [hpv] at hparse
      cases rest with
      | nil =>
        have hv : v = Json.arr xs := Option.some.inj hparse
        rw [hv] at hpv
        exact parseValue_arr_head _ _ _ _ hpv
      | cons a rest2 => exact Option.noConfusion hparse
  have hsw : startsWithTicks t.data = false := by
    rw [hr0]
    exact startsWithTicks_cons_ne _ (by decide)
  have hpre1 : preprocess t.data = t.data := by
    unfold preprocess
    rw [htrim, hsw]
    simp
  have hwrapdata : ("```json\n" ++ t ++ "\n```").data =
      backtick :: backtick :: backtick :: 'j' :: 's' :: 'o' :: 'n' :: '\n' ::
        (t.data ++ ['\n', backtick, backtick, backtick]) := by
    rw [String.data_append, String.data_append]
    rw [show ("```json\n" : String).data =
      backtick :: backtick :: backtick :: 'j' :: 's' :: 'o' :: 'n' :: '\n' :: []
      from by decide]
    rw [show ("\n```" : String).data = '\n' :: backtick :: backtick :: backtick :: []
      from by decide]
    simp
  have hsplitW : backtick :: backtick :: backtick :: 'j' :: 's' :: 'o' :: 'n' :: '\n' ::
      (t.data ++ ['\n', backtick, backtick, backtick]) =
      backtick :: ((backtick :: backtick :: 'j' :: 's' :: 'o' :: 'n' :: '\n' ::
        (t.data ++ ['\n', backtick, backtick])) ++ [backtick]) := by
    simp
  have htrim2 : trimBoth pyWs
      (backtick :: backtick :: backtick :: 'j' :: 's' :: 'o' :: 'n' :: '\n' ::
        (t.data ++ ['\n', backtick, backtick, backtick])) =
      backtick :: backtick :: backtick :: 'j' :: 's' :: 'o' :: 'n' :: '\n' ::
        (t.data ++ ['\n', backtick, backtick, backtick]) := by
    rw [hsplitW]
    exact trimBoth_eq_self_of_ends (by decide) (by decide)
  have hfence : trimBoth fenceChar
      (backtick :: backtick :: backtick :: 'j' :: 's' :: 'o' :: 'n' :: '\n' ::
        (t.data ++ ['\n', backtick, backtick, backtick])) =
      '\n' :: (t.data ++ ['\n']) := by
    unfold trimBoth
    rw [dropWhile_cons_pos (by decide), dropWhile_cons_pos (by decide),
      dropWhile_cons_pos (by decide), dropWhile_cons_pos (by decide),
      dropWhile_cons_pos (by decide), dropWhile_cons_pos (by decide),
      dropWhile_cons_pos (by decide), dropWhile_cons_neg (by decide)]
    unfold dropWhileEnd
    have h2 : ('\n' :: (t.data ++ ['\n', backtick, backtick, backtick])).reverse =
        backtick :: backtick :: backtick :: '\n' :: (t.data.reverse ++ ['\n']) := by
      simp
    rw [h2, dropWhile_cons_pos (by decide), dropWhile_cons_pos (by decide),
      dropWhile_cons_pos (by decide), dropWhile_cons_neg (by decide)]
    simp
  have htick : trimBoth tickChar ('\n' :: (t.data ++ ['\n'])) =
      '\n' :: (t.data ++ ['\n']) :=
    trimBoth_eq_self_of_ends (by decide) (by decide)
  have hpre2 : preprocess ("```json\n" ++ t ++ "\n```").data =
      '\n' :: (t.data ++ ['\n']) := by
    rw [hwrapdata]
    unfold preprocess
    rw [htrim2, startsWithTicks_of_ticks, if_pos rfl, hfence, htick]
  have hjeq : jsonParse ('\n' :: (t.data ++ ['\n'])) = jsonParse t.data := by
    apply jsonParse_congr
    rw [htrimJ]
    unfold trimBoth
    rw [dropWhile_cons_pos (by decide)]
    rw [hr0, List.cons_append, dropWhile_cons_neg (by decide), ← List.cons_append, ← hr0]
    unfold dropWhileEnd
    have h3 : (t.data ++ ['\n']).reverse = '\n' :: t.data.reverse := by simp
    rw [h3, dropWhile_cons_pos (by decide), hdwrevJ, List.reverse_reverse]
  unfold parseStage parsedJson
  rw [hpre1, hpre2, hjeq]

/-- Witness for C6: the fenced `[true]` parses like the bare `[true]`. -/
theorem fenced_block_parse_eq_witness :
    parseStage ("```json\n" ++ "[true]" ++ "\n```") = parseStage "[true]" :=
  fenced_block_parse_eq "[true]" [Json.bool true] (by decide) rfl

/-- Witness for C2 on a concrete entry and corpus. -/
theorem merge_keeps_all_entries_witness :
    ((mergedRows [bareRow] [listingA]).map Prod.fst).Perm [bareRow] ∧
    (bareRow, some listingA).2 =
      [listingA].find? (fun l => l.id == (bareRow, some listingA).1.job_id) :=
  ⟨(merge_keeps_all_entries [bareRow] [listingA]).1,
   (merge_keeps_all_entries [bareRow] [listingA]).2 (bareRow, some listingA)
     (by decide)⟩

/-- Witness for C3 on a concrete entry and corpus. -/
theorem merge_sorts_and_joins_all_witness :
    (mergedRows [ghostRow] [listingB]).length = [ghostRow].length ∧
    (mergedRows [ghostRow] [listingB]).Sorted rowRel ∧
    (ghostRow, (none : Option Listing)).2 =
      [listingB].find? (fun l => l.id == (ghostRow, (none : Option Listing)).1.job_id) :=
  ⟨(merge_sorts_and_joins_all [ghostRow] [listingB]).1,
   (merge_sorts_and_joins_all [ghostRow] [listingB]).2.1,
   (merge_sorts_and_joins_all [ghostRow] [listingB]).2.2 (ghostRow, none) (by decide)⟩

end Scrapper
